import Mathlib

/-!  # Verification of the metric-aggregation engine of `generate_report_from_data.py`

Shallow embedding of the campaign-performance report generator
(`src/generate_report_from_data.py`).  Conventions of the embedding:

* Python/NumPy floating point numbers are modelled as exact rationals `ℚ`;
  column values that can become `NaN`/`±inf` through pandas vectorised
  arithmetic (the business-data columns of the monthly aggregate) are
  modelled by `PFloat`, a rational extended with `pinf`, `ninf` and `nan`
  following IEEE-754 / NumPy rules for the operations the script uses.
* Python strings are modelled as their character lists (the inputs are
  ASCII); the string primitives the script uses (`str.replace` of single
  characters, `str.strip`, `str.lower`, the substring operator `in`,
  lexicographic `<` used by pandas sorting) are embedded as structural
  character-list functions so that everything evaluates.
* `pd.isna`-able cells are `Option`s; a `pandas` cell fed to
  `parse_currency` is a `PyVal` (missing, numeric, or text).
* Sorting done by pandas (`groupby` key sorting, `sort_values`) is
  embedded as an insertion sort `sortBy`; on the key lists the script
  sorts (which are duplicate-free) every comparison sort computes the same
  list, so this is extensionally faithful.
-/

/-- A pandas cell as seen by `parse_currency`: missing (`NaN`), numeric, or text. -/
inductive PyVal where
  | na : PyVal
  | num : ℚ → PyVal
  | str : String → PyVal
deriving DecidableEq

/-- `str.lower` for one ASCII character (Python `str.lower`, ASCII range). -/
def lowerChar (c : Char) : Char :=
  if 'A' ≤ c ∧ c ≤ 'Z' then Char.ofNat (c.toNat + 32) else c

/-- `str(x).lower()` (ASCII model). -/
def pyLower (s : String) : String := String.mk (s.toList.map lowerChar)

/-- `needle` occurs at the start of `hay` (helper for the substring test). -/
def headMatches : List Char → List Char → Bool
  | [], _ => true
  | _ :: _, [] => false
  | a :: as, b :: bs => a == b && headMatches as bs

/-- `needle` occurs somewhere in `hay`: Python's substring operator `in`. -/
def hasSub (needle : List Char) : List Char → Bool
  | [] => headMatches needle []
  | b :: bs => headMatches needle (b :: bs) || hasSub needle bs

/-- Python `needle in hay` on strings. -/
def pyIn (needle hay : String) : Bool := hasSub needle.toList hay.toList

/-- Whitespace stripped by Python `str.strip()` (the forms in these CSVs). -/
def isSpaceChar (c : Char) : Bool := c == ' ' || c == '\t' || c == '\n' || c == '\r'

/-- Python `str.strip()`. -/
def pyStrip (s : List Char) : List Char :=
  ((s.dropWhile isSpaceChar).reverse.dropWhile isSpaceChar).reverse

/-- `str(value).replace('$', '').replace(',', '').replace('"', '').strip()`
from `parse_currency` (line 84): replacing single characters by the empty
string deletes every occurrence of those characters. -/
def cleanCurrency (s : String) : List Char :=
  pyStrip (s.toList.filter (fun c => !(c == '$' || c == ',' || c == '\"')))

/-- Decimal digit characters, most significant first, as a natural number. -/
def digitsToNat (ds : List Char) : Nat := ds.foldl (fun a c => a * 10 + (c.toNat - 48)) 0

/-- The sign of a decimal literal and the remaining characters. -/
def stripSign : List Char → ℚ × List Char
  | '-' :: t => (-1, t)
  | '+' :: t => (1, t)
  | s => (1, s)

/-- Model of Python `float(s)` restricted to optionally signed decimal
literals `[+-]? digits [. digits] | [+-]? . digits | [+-]? digits .`
(the shapes that occur in these CSV files after cleaning); every other
shape raises `ValueError`, modelled as `none`. -/
def pyFloat? (s : List Char) : Option ℚ :=
  let sign := (stripSign s).1
  let body := (stripSign s).2
  let ip := body.takeWhile Char.isDigit
  let rest := body.dropWhile Char.isDigit
  match rest with
  | [] => if ip.isEmpty then none else some (sign * digitsToNat ip)
  | '.' :: fp =>
      if fp.all Char.isDigit ∧ (ip ≠ [] ∨ fp ≠ []) then
        some (sign * ((digitsToNat ip : ℚ) + (digitsToNat fp : ℚ) / (10 ^ fp.length)))
      else none
  | _ => none

/-- `parse_currency` (src/generate_report_from_data.py lines 77-88):
`NaN → 0.0`; numeric values pass through `float(value)` unchanged; strings
are cleaned of `$`, `,`, `"`, stripped, then `float(cleaned) if cleaned
else 0.0`, any `ValueError` recovered as `0.0`. -/
def parse_currency (v : PyVal) : ℚ :=
  match v with
  | .na => 0
  | .num x => x
  | .str s =>
      let cleaned := cleanCurrency s
      if cleaned.isEmpty then 0
      else
        match pyFloat? cleaned with
        | some x => x
        | none => 0

/-- `classify_segment` (src/generate_report_from_data.py lines 108-118).
A missing (`NaN`) campaign name is `Option.none`. -/
def classify_segment (campaignName : Option String) : String :=
  match campaignName with
  | none => "Non-Branded"
  | some nm =>
      let nl := pyLower nm
      if pyIn "branded" nl then "Branded"
      else if pyIn " pat " nl || pyIn "- pat -" nl || pyIn "_pat_" nl then "Competitor"
      else "Non-Branded"

/-- The Classifier contract for segments exactly as the specification words
it (spec §4.2): case-insensitive; "branded" present → `Branded`; else any
of the three delimited "pat" marker forms (space-pat-space,
hyphen-pat-hyphen, underscore-pat-underscore) → `Competitor`; else
`Non-Branded`; missing name → `Non-Branded`. -/
def segmentSpec (campaignName : Option String) : String :=
  match campaignName with
  | none => "Non-Branded"
  | some nm =>
      let nl := pyLower nm
      if pyIn "branded" nl then "Branded"
      else if [" pat ", "- pat -", "_pat_"].any (fun p => pyIn p nl) then "Competitor"
      else "Non-Branded"

/-- `classify_segment` with the redundant `'- pat -' in name_lower` test
removed from the `Competitor` disjunction (the simplification claim C9
compares against). -/
def classify_segment_simplified (campaignName : Option String) : String :=
  match campaignName with
  | none => "Non-Branded"
  | some nm =>
      let nl := pyLower nm
      if pyIn "branded" nl then "Branded"
      else if pyIn " pat " nl || pyIn "_pat_" nl then "Competitor"
      else "Non-Branded"

section SubstringLemmas

/-- `headMatches` decides `List.IsPrefix`. -/
theorem headMatches_iff (n h : List Char) : headMatches n h = true ↔ n <+: h := by
  induction n generalizing h with
  | nil => simp [headMatches]
  | cons a as ih =>
      cases h with
      | nil => simp [headMatches]
      | cons b bs =>
          simp only [headMatches, Bool.and_eq_true, beq_iff_eq, ih, List.cons_prefix_cons]

/-- `hasSub` decides `List.IsInfix`. -/
theorem hasSub_iff (n h : List Char) : hasSub n h = true ↔ n <:+: h := by
  induction h with
  | nil =>
      cases n with
      | nil => simp [hasSub, headMatches]
      | cons a as => simp [hasSub, headMatches]
  | cons b bs ih =>
      simp only [hasSub, Bool.or_eq_true, headMatches_iff, ih, List.infix_cons_iff]

/-- An occurrence of `"- pat -"` contains an occurrence of `" pat "`. -/
theorem hasSub_pat_of_hyphen (l : List Char) (h : hasSub "- pat -".toList l = true) :
    hasSub " pat ".toList l = true := by
  rw [hasSub_iff] at h ⊢
  exact List.IsInfix.trans (by decide) h

end SubstringLemmas

/-! ## Dates and time-bucket labels

A pandas `Timestamp` is modelled by its calendar components.  Chronological
(timestamp) order on valid dates is the lexicographic order on
`(year, month, day)`, which the injective encoding `serial` linearises. -/

/-- A calendar date (the components of a pandas `Timestamp`). -/
structure Date where
  y : Nat
  m : Nat
  d : Nat
deriving DecidableEq, Repr

/-- Gregorian leap year. -/
def isLeap (y : Nat) : Bool := (y % 4 == 0 && y % 100 != 0) || y % 400 == 0

/-- Days in a month of year `y`. -/
def daysInMonth (y m : Nat) : Nat :=
  match m with
  | 2 => if isLeap y then 29 else 28
  | 4 => 30 | 6 => 30 | 9 => 30 | 11 => 30
  | 1 => 31 | 3 => 31 | 5 => 31 | 7 => 31 | 8 => 31 | 10 => 31 | 12 => 31
  | _ => 0

/-- The date denotes a real calendar day. -/
def ValidDate (dt : Date) : Prop :=
  1 ≤ dt.m ∧ dt.m ≤ 12 ∧ 1 ≤ dt.d ∧ dt.d ≤ daysInMonth dt.y dt.m

instance (dt : Date) : Decidable (ValidDate dt) := by unfold ValidDate; infer_instance

/-- Injective linearisation of the lexicographic (chronological) order on
valid dates: `m ≤ 12 < 32` and `d ≤ 31 < 32`. -/
def serial (dt : Date) : Nat := dt.y * 1024 + dt.m * 32 + dt.d

/-- `strftime('%b')` month abbreviation. -/
def monthAbbrev : Nat → String
  | 1 => "Jan" | 2 => "Feb" | 3 => "Mar" | 4 => "Apr" | 5 => "May" | 6 => "Jun"
  | 7 => "Jul" | 8 => "Aug" | 9 => "Sep" | 10 => "Oct" | 11 => "Nov" | 12 => "Dec"
  | _ => "???"

/-- `Date.strftime('%b %Y')`: the `Month_Label` column (e.g. `"Sep 2024"`). -/
def monthLabel (dt : Date) : String := monthAbbrev dt.m ++ " " ++ Nat.repr dt.y

/-- Days of year `y` before month `m` (0-based cumulative month lengths). -/
def cumDays (y m : Nat) : Nat :=
  let l : Nat := if isLeap y then 1 else 0
  match m with
  | 1 => 0 | 2 => 31 | 3 => 59 + l | 4 => 90 + l | 5 => 120 + l | 6 => 151 + l
  | 7 => 181 + l | 8 => 212 + l | 9 => 243 + l | 10 => 273 + l | 11 => 304 + l
  | 12 => 334 + l
  | _ => 400

/-- 0-based day of the year. -/
def doy0 (dt : Date) : Nat := cumDays dt.y dt.m + (dt.d - 1)

/-- Weekday of January 1st of year `y`, Sunday = 0 (Gauss's formula for the
Gregorian calendar). -/
def jan1dow (y : Nat) : Nat :=
  (1 + 5 * ((y - 1) % 4) + 4 * ((y - 1) % 100) + 6 * ((y - 1) % 400)) % 7

/-- Weekday of a date, Sunday = 0 (weekday advances by one per day from
January 1st of the same year). -/
def dow (dt : Date) : Nat := (jan1dow dt.y + doy0 dt) % 7

/-- `strftime('%U')`: week number of the year, Sunday as first day of the
week; all days before the first Sunday of the year are week 0. -/
def weekNum (dt : Date) : Nat := (doy0 dt + 7 - dow dt) / 7

/-- The decimal character of `n % 10`. -/
def digitChar (n : Nat) : Char := Char.ofNat (48 + n % 10)

/-- Two-digit zero-padded decimal (`%02d`, used by `%U`; faithful for `n < 100`). -/
def pad2 (n : Nat) : List Char := [digitChar (n / 10), digitChar n]

/-- Four-digit decimal (`%Y` prints pandas years, which lie in
1677..2262, with exactly four digits). -/
def pad4 (n : Nat) : List Char := pad2 (n / 100) ++ pad2 (n % 100)

/-- `Date.strftime('%Y-W%U')` as a character list. -/
def weekLabelChars (dt : Date) : List Char :=
  pad4 dt.y ++ '-' :: 'W' :: pad2 (weekNum dt)

/-- `Date.strftime('%Y-W%U')`: the `Week` column (e.g. `"2024-W35"`). -/
def weekLabel (dt : Date) : String := String.mk (weekLabelChars dt)

/-! ## Loading campaign data -/

/-- One raw row of the campaign CSV, restricted to the columns
`load_campaign_data` reads (`Date`, `Portfolio name`, `Campaign Name`,
`Spend`, `7 Day Total Sales `, `7 Day Total Orders (#)`, `Impressions`,
`Clicks`). -/
structure RawCampaignRow where
  dateStr : String
  portfolioName : Option String
  campaignName : Option String
  spend : PyVal
  sales : PyVal
  orders : PyVal
  impressions : PyVal
  clicks : PyVal
deriving DecidableEq

/-- A normalised campaign record (the dataframe row after
`load_campaign_data` has parsed the numeric columns). -/
structure CRecord where
  date : Date
  portfolioName : Option String
  campaignName : Option String
  spend : ℚ
  sales : ℚ
  orders : ℚ
  clicks : ℚ
  impressions : ℚ
deriving DecidableEq

/-- The `Segment` column: `classify_segment` applied to `Campaign Name`. -/
def segOf (r : CRecord) : String := classify_segment r.campaignName

/-- `"Jan"`.. `"Dec"` back to 1..12 (helper for the mixed-format parser). -/
def monthFromAbbrev (s : List Char) : Option Nat :=
  if s = "Jan".toList then some 1 else if s = "Feb".toList then some 2
  else if s = "Mar".toList then some 3 else if s = "Apr".toList then some 4
  else if s = "May".toList then some 5 else if s = "Jun".toList then some 6
  else if s = "Jul".toList then some 7 else if s = "Aug".toList then some 8
  else if s = "Sep".toList then some 9 else if s = "Oct".toList then some 10
  else if s = "Nov".toList then some 11 else if s = "Dec".toList then some 12
  else none

/-- Split a character list at every occurrence of the separator `sep`. -/
def splitOnChar (sep : Char) (s : List Char) : List (List Char) :=
  match s with
  | [] => [[]]
  | c :: cs =>
      let rest := splitOnChar sep cs
      if c == sep then [] :: rest
      else
        match rest with
        | [] => [[c]]
        | r :: rs => (c :: r) :: rs

/-- All-digit, non-empty chunk to a number. -/
def chunkNat? (s : List Char) : Option Nat :=
  if s ≠ [] ∧ s.all Char.isDigit then some (digitsToNat s) else none

/-- Model of `pd.to_datetime(s, format='mixed', dayfirst=False)` for one
value, for the two date shapes these CSVs contain (spec §4.1):
`"%b %d, %Y"` (e.g. `"Sep 01, 2024"`) and `"%m/%d/%y"` / `"%m/%d/%Y"`
(e.g. `"9/1/24"`); two-digit years pivot to 2000..2068 / 1969..1999 as in
`dateutil`.  A value of neither shape, or with an impossible calendar
day, fails to parse (`none`), which `pd.to_datetime` (default
`errors='raise'`) turns into a raised exception. -/
def parseDate (s : String) : Option Date :=
  let t := pyStrip s.toList
  if t.contains '/' then
    match splitOnChar '/' t with
    | [ms, ds, ys] =>
        match chunkNat? ms, chunkNat? ds, chunkNat? ys with
        | some m, some d, some y2 =>
            let y := if ys.length ≤ 2 then (if y2 ≤ 68 then 2000 + y2 else 1900 + y2) else y2
            if ValidDate ⟨y, m, d⟩ then some ⟨y, m, d⟩ else none
        | _, _, _ => none
    | _ => none
  else
    match splitOnChar ',' t with
    | [md, ys] =>
        match splitOnChar ' ' md, chunkNat? (pyStrip ys) with
        | [mon, ds], some y =>
            match monthFromAbbrev mon, chunkNat? ds with
            | some m, some d => if ValidDate ⟨y, m, d⟩ then some ⟨y, m, d⟩ else none
            | _, _ => none
        | _, _ => none
    | _ => none

/-- `load_campaign_data` (src/generate_report_from_data.py lines 120-152),
restricted to its data transformations: parse the `Date` column with
`pd.to_datetime` — whose default `errors='raise'` aborts the whole load on
the first unparseable value — and coerce `Spend`, `7 Day Total Sales `,
`7 Day Total Orders (#)`, `Impressions` and `Clicks` with
`parse_currency`.  (The derived `Portfolio_Type`/`Segment`/label columns
are functions of the stored fields and are recomputed where used.) -/
def load_campaign_data : List RawCampaignRow → Except String (List CRecord)
  | [] => Except.ok []
  | r :: rest =>
      match parseDate r.dateStr with
      | none => Except.error ("unconverted data remains: " ++ r.dateStr)
      | some dt =>
          match load_campaign_data rest with
          | Except.error e => Except.error e
          | Except.ok recs =>
              Except.ok
                ({ date := dt
                   portfolioName := r.portfolioName
                   campaignName := r.campaignName
                   spend := parse_currency r.spend
                   sales := parse_currency r.sales
                   orders := parse_currency r.orders
                   clicks := parse_currency r.clicks
                   impressions := parse_currency r.impressions } :: recs)

/-! ## Sorting (pandas `groupby` key ordering / `sort_values`)

pandas sorts grouping keys and `sort_values` columns; the key lists sorted
by this script are duplicate-free, so the result of any comparison sort is
the same list.  We embed the sort as a structural insertion sort. -/

/-- Insert `a` into `l` before the first element `b` with `le a b`. -/
def insertLe {α : Type} (le : α → α → Bool) (a : α) : List α → List α
  | [] => [a]
  | b :: bs => if le a b then a :: b :: bs else b :: insertLe le a bs

/-- Insertion sort by the boolean comparison `le`. -/
def sortBy {α : Type} (le : α → α → Bool) : List α → List α
  | [] => []
  | a :: as => insertLe le a (sortBy le as)

/-- Strict lexicographic (code-point) order on character lists: Python's
`<` on strings, the order pandas uses to sort string keys. -/
def charListLt : List Char → List Char → Bool
  | _, [] => false
  | [], _ :: _ => true
  | a :: as, b :: bs => if a < b then true else if b < a then false else charListLt as bs

/-- Python string `<=`, as used (negated) by sorting. -/
def strLeB (a b : String) : Bool := !(charListLt b.data a.data)

section SortLemmas

variable {α : Type} (le : α → α → Bool)

theorem insertLe_perm (a : α) (l : List α) : List.Perm (insertLe le a l) (a :: l) := by
  induction l with
  | nil => simp [insertLe]
  | cons b bs ih =>
      by_cases h : le a b
      · simp [insertLe, h]
      · simp only [insertLe, h, if_neg, Bool.false_eq_true, not_false_eq_true, ite_false]
        exact List.Perm.trans (List.Perm.cons b ih) (List.Perm.swap a b bs)

theorem sortBy_perm (l : List α) : List.Perm (sortBy le l) l := by
  induction l with
  | nil => simp [sortBy]
  | cons a as ih =>
      exact List.Perm.trans (insertLe_perm le a (sortBy le as)) (List.Perm.cons a ih)

theorem insertLe_pairwise (htot : ∀ a b, le a b || le b a)
    (htrans : ∀ a b c, le a b = true → le b c = true → le a c = true)
    (a : α) (l : List α) (hl : l.Pairwise (fun x y => le x y = true)) :
    (insertLe le a l).Pairwise (fun x y => le x y = true) := by
  induction l with
  | nil => simp [insertLe]
  | cons b bs ih =>
      rcases List.pairwise_cons.mp hl with ⟨hb, hbs⟩
      by_cases h : le a b
      · simp only [insertLe, h, ite_true]
        refine List.pairwise_cons.mpr ⟨?_, hl⟩
        intro x hx
        rcases List.mem_cons.mp hx with hx | hx
        · exact hx ▸ h
        · exact htrans a b x h (hb x hx)
      · simp only [insertLe, h, Bool.false_eq_true, not_false_eq_true, ite_false]
        refine List.pairwise_cons.mpr ⟨?_, ih hbs⟩
        intro x hx
        rcases List.mem_cons.mp ((insertLe_perm le a bs).mem_iff.mp hx) with hx | hx
        · rw [hx]
          have hba := htot a b
          simp only [h, Bool.false_or] at hba
          exact hba
        · exact hb x hx

theorem sortBy_pairwise (htot : ∀ a b, le a b || le b a)
    (htrans : ∀ a b c, le a b = true → le b c = true → le a c = true)
    (l : List α) : (sortBy le l).Pairwise (fun x y => le x y = true) := by
  induction l with
  | nil => simp [sortBy]
  | cons a as ih => exact insertLe_pairwise le htot htrans a (sortBy le as) ih

end SortLemmas

section CharListOrder

theorem charListLt_asymm (x y : List Char) (h : charListLt x y = true) :
    charListLt y x = false := by
  induction x generalizing y with
  | nil =>
      cases y with
      | nil => simp [charListLt] at h
      | cons b bs => simp [charListLt]
  | cons a as ih =>
      cases y with
      | nil => simp [charListLt] at h
      | cons b bs =>
          simp only [charListLt] at h ⊢
          rcases lt_trichotomy a b with hab | hab | hab
          · simp [hab, not_lt_of_gt hab]
          · simp only [hab, lt_irrefl, ite_false] at h ⊢
            exact ih bs h
          · simp [hab, not_lt_of_gt hab] at h

theorem charListLt_trans (x y z : List Char) (h1 : charListLt x y = true)
    (h2 : charListLt y z = true) : charListLt x z = true := by
  induction x generalizing y z with
  | nil =>
      cases z with
      | nil =>
          cases y with
          | nil => simp [charListLt] at h1
          | cons b bs => simp [charListLt] at h2
      | cons c cs => simp [charListLt]
  | cons a as ih =>
      cases y with
      | nil => simp [charListLt] at h1
      | cons b bs =>
          cases z with
          | nil => simp [charListLt] at h2
          | cons c cs =>
              simp only [charListLt] at h1 h2 ⊢
              rcases lt_trichotomy a b with hab | hab | hab
              · rcases lt_trichotomy b c with hbc | hbc | hbc
                · simp [lt_trans hab hbc]
                · subst hbc; simp [hab]
                · simp [hbc, not_lt_of_gt hbc] at h2
              · subst hab
                rcases lt_trichotomy a c with hac | hac | hac
                · simp [hac]
                · subst hac
                  simp only [lt_irrefl, ite_false] at h1 h2 ⊢
                  exact ih bs cs h1 h2
                · simp [hac, not_lt_of_gt hac] at h2
              · simp [hab, not_lt_of_gt hab] at h1

theorem charListLt_connex (x y : List Char) (h1 : charListLt x y = false)
    (h2 : charListLt y x = false) : x = y := by
  induction x generalizing y with
  | nil =>
      cases y with
      | nil => rfl
      | cons b bs => simp [charListLt] at h1
  | cons a as ih =>
      cases y with
      | nil => simp [charListLt] at h2
      | cons b bs =>
          simp only [charListLt] at h1 h2
          rcases lt_trichotomy a b with hab | hab | hab
          · simp [hab] at h1
          · subst hab
            simp only [lt_irrefl, ite_false] at h1 h2
            rw [ih bs h1 h2]
          · simp [hab] at h2

theorem charListLt_irrefl (x : List Char) : charListLt x x = false := by
  cases h : charListLt x x
  · rfl
  · exact absurd (charListLt_asymm x x h) (by simp [h])

theorem strLeB_total (a b : String) : strLeB a b || strLeB b a := by
  unfold strLeB
  cases h1 : charListLt b.data a.data
  · simp
  · cases h2 : charListLt a.data b.data
    · simp
    · exact absurd (charListLt_asymm _ _ h2) (by simp [h1])

theorem strLeB_trans (a b c : String) (h1 : strLeB a b = true) (h2 : strLeB b c = true) :
    strLeB a c = true := by
  unfold strLeB at h1 h2 ⊢
  simp only [Bool.not_eq_true'] at h1 h2 ⊢
  cases hca : charListLt c.data a.data
  · rfl
  · exfalso
    cases hbc : charListLt b.data c.data
    · have hb : b.data = c.data := charListLt_connex _ _ hbc h2
      rw [← hb] at hca
      exact absurd h1 (by simp [hca])
    · exact absurd h1 (by simp [charListLt_trans _ _ _ hbc hca])

end CharListOrder

/-! ## Metric calculation and aggregation -/

/-- The output row of `calc_metrics`: the five summed raw quantities and
the five derived metrics. -/
structure CalcOut where
  Spend : ℚ
  Sales : ℚ
  Orders : ℚ
  Clicks : ℚ
  Impressions : ℚ
  ROAS : ℚ
  ACoS : ℚ
  CVR : ℚ
  CPC : ℚ
  CTR : ℚ
deriving DecidableEq

/-- `calc_metrics` (src/generate_report_from_data.py lines 182-201):
sum the raw columns of the given row subset, then the guarded ratios
(`x / y if y > 0 else 0`). -/
def calc_metrics (rows : List CRecord) : CalcOut :=
  let spend := (rows.map (fun r => r.spend)).sum
  let sales := (rows.map (fun r => r.sales)).sum
  let orders := (rows.map (fun r => r.orders)).sum
  let clicks := (rows.map (fun r => r.clicks)).sum
  let impressions := (rows.map (fun r => r.impressions)).sum
  { Spend := spend
    Sales := sales
    Orders := orders
    Clicks := clicks
    Impressions := impressions
    ROAS := if 0 < spend then sales / spend else 0
    ACoS := if 0 < sales then spend / sales * 100 else 0
    CVR := if 0 < clicks then orders / clicks * 100 else 0
    CPC := if 0 < clicks then spend / clicks else 0
    CTR := if 0 < impressions then clicks / impressions * 100 else 0 }

/-- `series.min()` over a list of naturals (0 for an empty list, which the
script never takes a minimum of). -/
def listMin : List Nat → Nat
  | [] => 0
  | x :: xs => xs.foldl Nat.min x

/-- `pandas` NaN/±inf-aware float cell: the value of a vectorised column
operation in the monthly aggregate. -/
inductive PFloat where
  | val : ℚ → PFloat
  | pinf : PFloat
  | ninf : PFloat
  | nan : PFloat
deriving DecidableEq

/-- NumPy float division of a (finite) column value by a possibly
missing/non-finite one: `x / 0` is `+inf`, `-inf` or `NaN` by the sign of
`x`; anything involving `NaN` is `NaN`. -/
def pdiv : PFloat → PFloat → PFloat
  | .nan, _ => .nan
  | _, .nan => .nan
  | .val a, .val b =>
      if b = 0 then (if 0 < a then .pinf else if a < 0 then .ninf else .nan)
      else .val (a / b)
  | .val _, .pinf => .val 0
  | .val _, .ninf => .val 0
  | .pinf, .val b => if b < 0 then .ninf else .pinf
  | .ninf, .val b => if b < 0 then .pinf else .ninf
  | .pinf, .pinf => .nan
  | .pinf, .ninf => .nan
  | .ninf, .pinf => .nan
  | .ninf, .ninf => .nan

/-- NumPy multiplication by the positive constant 100. -/
def pmul100 : PFloat → PFloat
  | .val a => .val (a * 100)
  | .pinf => .pinf
  | .ninf => .ninf
  | .nan => .nan

/-- NumPy subtraction of a finite column from a possibly missing one. -/
def psub : PFloat → PFloat → PFloat
  | .nan, _ => .nan
  | _, .nan => .nan
  | .val a, .val b => .val (a - b)
  | .pinf, _ => .pinf
  | .ninf, _ => .ninf
  | .val _, .pinf => .ninf
  | .val _, .ninf => .pinf

/-- `Series.fillna(0)`: replaces `NaN` only — `±inf` pass through. -/
def fillna0 : PFloat → PFloat
  | .nan => .val 0
  | x => x

/-- `Series.clip(lower=0)`: values below 0 become 0; `NaN` stays `NaN`. -/
def clip0 : PFloat → PFloat
  | .val a => .val (max a 0)
  | .pinf => .pinf
  | .ninf => .val 0
  | .nan => .nan

/-- One row of the business report after `load_business_data`
(src/generate_report_from_data.py lines 154-176). -/
structure BRecord where
  date : Date
  totalSales : ℚ
  units : ℚ
  sessions : ℚ
deriving DecidableEq

/-- The business-data columns attached to a monthly aggregate row when a
business dataframe is supplied (lines 215-223). -/
structure BizCols where
  totalSales : PFloat
  units : PFloat
  sessions : PFloat
  tacos : PFloat
  organic : PFloat
deriving DecidableEq

/-- One row of the monthly aggregate: label, `calc_metrics` output, and —
when business data was joined — the joined columns. -/
structure MonthlyRow where
  label : String
  core : CalcOut
  biz : Option BizCols
deriving DecidableEq

/-- The campaign rows of one month bucket. -/
def monthBucket (camp : List CRecord) (L : String) : List CRecord :=
  camp.filter (fun r => monthLabel r.date = L)

/-- `campaign_df.groupby('Month_Label')['Date'].min()` for one bucket, on
the `serial` linearisation of the timestamp order. -/
def minMonthS (camp : List CRecord) (L : String) : Nat :=
  listMin ((monthBucket camp L).map (fun r => serial r.date))

/-- The month buckets, in output order (lines 205-212): `groupby` sorts
the distinct `Month_Label` keys (alphabetically), then the frame is
re-sorted by each bucket's minimum `Date`. -/
def month_keys (camp : List CRecord) : List String :=
  sortBy (fun L M => decide (minMonthS camp L ≤ minMonthS camp M))
    (sortBy strLeB ((camp.map (fun r => monthLabel r.date)).dedup))

/-- The business rows of one month bucket. -/
def bizBucket (biz : List BRecord) (L : String) : List BRecord :=
  biz.filter (fun b => monthLabel b.date = L)

/-- One joined cell of `monthly.merge(biz_monthly, on='Month_Label',
how='left')`: the summed business column if the label matched a business
bucket, else the `NaN` a left join leaves. -/
def bizCell (biz : List BRecord) (L : String) (f : BRecord → ℚ) : PFloat :=
  if bizBucket biz L = [] then .nan else .val (((bizBucket biz L).map f).sum)

/-- One output row of `aggregate_by_month` for bucket `L` (lines 203-225):
`calc_metrics` of the bucket plus, when business data is present, the
left-joined sums, `TACOS = (Spend / Total_Sales * 100).fillna(0)` and
`Organic_Sales = (Total_Sales - Sales).clip(lower=0)` with pandas
float semantics. -/
def month_row (camp : List CRecord) (biz : Option (List BRecord)) (L : String) : MonthlyRow :=
  let core := calc_metrics (monthBucket camp L)
  { label := L
    core := core
    biz := biz.map (fun bs =>
      let t := bizCell bs L (fun b => b.totalSales)
      { totalSales := t
        units := bizCell bs L (fun b => b.units)
        sessions := bizCell bs L (fun b => b.sessions)
        tacos := fillna0 (pmul100 (pdiv (.val core.Spend) t))
        organic := clip0 (psub t (.val core.Sales)) }) }

/-- `aggregate_by_month` (src/generate_report_from_data.py lines 203-225). -/
def aggregate_by_month (camp : List CRecord) (biz : Option (List BRecord)) : List MonthlyRow :=
  (month_keys camp).map (month_row camp biz)

/-- The campaign rows of one week bucket. -/
def weekBucket (camp : List CRecord) (L : String) : List CRecord :=
  camp.filter (fun r => weekLabel r.date = L)

/-- `groupby('Week')['Date'].min()` for one bucket, on `serial`. -/
def minWeekS (camp : List CRecord) (L : String) : Nat :=
  listMin ((weekBucket camp L).map (fun r => serial r.date))

/-- The week buckets in output order (lines 227-233): the distinct `Week`
labels in pandas string order (`groupby` sorts them;
`sort_values('Week')` re-sorts by the same lexicographic string order). -/
def week_keys (camp : List CRecord) : List String :=
  sortBy strLeB ((camp.map (fun r => weekLabel r.date)).dedup)

/-- `aggregate_by_week` (src/generate_report_from_data.py lines 227-233). -/
def aggregate_by_week (camp : List CRecord) : List (String × CalcOut) :=
  (week_keys camp).map (fun L => (L, calc_metrics (weekBucket camp L)))

/-- The campaign rows of one segment group. -/
def segBucket (camp : List CRecord) (k : String) : List CRecord :=
  camp.filter (fun r => segOf r = k)

/-- `aggregate_by_segment` (src/generate_report_from_data.py lines
235-240): group by the derived `Segment` column (`groupby` sorts the
distinct keys) and apply `calc_metrics` to each group. -/
def aggregate_by_segment (camp : List CRecord) : List (String × CalcOut) :=
  (sortBy strLeB ((camp.map segOf).dedup)).map (fun k => (k, calc_metrics (segBucket camp k)))

/-! ## Claim C5: `classify_segment` against the spec's classification contract -/

/-- **C5.** For every campaign-name value (including missing and empty),
`classify_segment` computes exactly the segment the spec describes --
case-insensitive `"branded"` containment gives `Branded` with precedence
over the `Competitor` check, the three delimited "pat" marker forms give
`Competitor`, everything else (including missing and empty names) gives
`Non-Branded`.  Stated as extensional equality with `segmentSpec`, the
function transcribed from the spec's words, plus the spec's own edge
examples. -/
theorem C5_classify_segment_matches_spec (name : Option String) :
    classify_segment name = segmentSpec name ∧
    classify_segment none = "Non-Branded" ∧
    classify_segment (some "") = "Non-Branded" ∧
    classify_segment (some "Brand X - branded - pat campaign") = "Branded" ∧
    classify_segment (some "Generic - pat - campaign") = "Competitor" ∧
    classify_segment (some "Widget Search") = "Non-Branded" := by
  refine ⟨?_, rfl, by decide, by decide, by decide, by decide⟩
  cases name with
  | none => rfl
  | some nm =>
      simp only [classify_segment, segmentSpec, List.any_cons, List.any_nil,
        Bool.or_false, Bool.or_assoc]

/-! ## Claim C9: the `'- pat -'` disjunct of the Competitor test is redundant -/

/-- **C9.** Dropping the `'- pat -' in name_lower` disjunct from
`classify_segment` does not change the function on any input: a lower-cased
name containing `"- pat -"` also contains `" pat "`. -/
theorem C9_hyphen_pat_disjunct_redundant (name : Option String) :
    classify_segment name = classify_segment_simplified name := by
  cases name with
  | none => rfl
  | some nm =>
      simp only [classify_segment, classify_segment_simplified]
      cases h : pyIn "- pat -" (pyLower nm)
      · simp [h]
      · have h2 : pyIn " pat " (pyLower nm) = true := hasSub_pat_of_hyphen _ h
        simp [h, h2]

/-! ## Claim C10: `parse_currency` does not clamp, and count columns use it -/

/-- Helper: `parse_currency` on the currency-formatted negative text `"$-5"`. -/
theorem parse_currency_usd_neg5 : parse_currency (.str "$-5") = -5 := by
  have h1 : cleanCurrency "$-5" = ['-', '5'] := by decide
  have hs : stripSign ['-', '5'] = (-1, ['5']) := by decide
  have h2 : List.dropWhile Char.isDigit ['5'] = [] := by decide
  have h3 : List.takeWhile Char.isDigit ['5'] = ['5'] := by decide
  have h4 : digitsToNat ['5'] = 5 := by decide
  simp only [parse_currency, h1]
  norm_num [pyFloat?, hs, h2, h3, h4]

/-- Helper: `parse_currency` on the thousands-separated text `"1,234"`. -/
theorem parse_currency_comma_1234 : parse_currency (.str "1,234") = 1234 := by
  have h1 : cleanCurrency "1,234" = ['1', '2', '3', '4'] := by decide
  have hs : stripSign ['1', '2', '3', '4'] = (1, ['1', '2', '3', '4']) := by decide
  have h2 : List.dropWhile Char.isDigit ['1', '2', '3', '4'] = [] := by decide
  have h3 : List.takeWhile Char.isDigit ['1', '2', '3', '4'] = ['1', '2', '3', '4'] := by decide
  have h4 : digitsToNat ['1', '2', '3', '4'] = 1234 := by decide
  simp only [parse_currency, h1]
  norm_num [pyFloat?, hs, h2, h3, h4]

/-- A raw campaign row whose count columns hold negative / currency-formatted
text and a negative number (demonstration input for C10). -/
def c10row : RawCampaignRow :=
  { dateStr := "Sep 01, 2024"
    portfolioName := none
    campaignName := none
    spend := .num 0
    sales := .na
    orders := .str "$-5"
    impressions := .num (-3)
    clicks := .str "1,234" }

/-- The record `load_campaign_data` produces for `c10row`. -/
def c10rec : CRecord :=
  { date := ⟨2024, 9, 1⟩
    portfolioName := none
    campaignName := none
    spend := 0
    sales := 0
    orders := -5
    clicks := 1234
    impressions := -3 }

/-- **C10.** `parse_currency` enforces no non-negativity: a negative numeric
input passes through unchanged, and since `load_campaign_data` coerces the
count columns (`Orders`, `Impressions`, `Clicks`) with the same parser,
negative or currency-formatted count text (`"$-5"`, `"1,234"`) flows into
the aggregation records — and from there into `calc_metrics` sums — as a
(possibly negative) rational, with no clamping or rejection. -/
theorem C10_parse_currency_no_clamping (x : ℚ) (hx : x < 0) :
    parse_currency (.num x) = x ∧
    parse_currency (.num x) < 0 ∧
    load_campaign_data [c10row] = Except.ok [c10rec] ∧
    c10rec.orders = -5 ∧ c10rec.clicks = 1234 ∧ c10rec.impressions = -3 ∧
    (calc_metrics [c10rec]).Orders = -5 ∧ (calc_metrics [c10rec]).Orders < 0 := by
  refine ⟨rfl, hx, ?_, rfl, rfl, rfl, ?_, ?_⟩
  · have hd : parseDate "Sep 01, 2024" = some ⟨2024, 9, 1⟩ := by decide
    simp only [load_campaign_data, c10row, hd,
      parse_currency_usd_neg5, parse_currency_comma_1234]
    simp [c10rec, parse_currency]
  · simp [calc_metrics, c10rec]
  · norm_num [calc_metrics, c10rec]

/-- Witness for C10 at the concrete negative input `x = -7`. -/
theorem C10_witness :
    (-7 : ℚ) < 0 ∧
    (parse_currency (.num (-7)) = -7 ∧
      parse_currency (.num (-7)) < 0 ∧
      load_campaign_data [c10row] = Except.ok [c10rec] ∧
      c10rec.orders = -5 ∧ c10rec.clicks = 1234 ∧ c10rec.impressions = -3 ∧
      (calc_metrics [c10rec]).Orders = -5 ∧ (calc_metrics [c10rec]).Orders < 0) :=
  ⟨by norm_num, C10_parse_currency_no_clamping (-7) (by norm_num)⟩

/-! ## Claim C1: the Metric Calculator's division-by-zero contract -/

/-- **C1.** For every row subset with non-negative raw quantities (the
data model's domain, spec §3), `calc_metrics` returns the exact ratio for
each derived metric whenever its denominator is non-zero, and exactly `0`
whenever its denominator is `0` — the guarded Python expressions
`x / y if y > 0 else 0` never divide by zero, so no infinity/NaN/error
can arise. -/
theorem C1_calc_metrics_div_by_zero_contract (rows : List CRecord)
    (h : ∀ r ∈ rows, 0 ≤ r.spend ∧ 0 ≤ r.sales ∧ 0 ≤ r.orders ∧
      0 ≤ r.clicks ∧ 0 ≤ r.impressions) :
    ((rows.map (fun r => r.spend)).sum = 0 → (calc_metrics rows).ROAS = 0) ∧
    ((rows.map (fun r => r.spend)).sum ≠ 0 →
      (calc_metrics rows).ROAS =
        (rows.map (fun r => r.sales)).sum / (rows.map (fun r => r.spend)).sum) ∧
    ((rows.map (fun r => r.sales)).sum = 0 → (calc_metrics rows).ACoS = 0) ∧
    ((rows.map (fun r => r.sales)).sum ≠ 0 →
      (calc_metrics rows).ACoS =
        (rows.map (fun r => r.spend)).sum / (rows.map (fun r => r.sales)).sum * 100) ∧
    ((rows.map (fun r => r.clicks)).sum = 0 → (calc_metrics rows).CVR = 0) ∧
    ((rows.map (fun r => r.clicks)).sum ≠ 0 →
      (calc_metrics rows).CVR =
        (rows.map (fun r => r.orders)).sum / (rows.map (fun r => r.clicks)).sum * 100) ∧
    ((rows.map (fun r => r.clicks)).sum = 0 → (calc_metrics rows).CPC = 0) ∧
    ((rows.map (fun r => r.clicks)).sum ≠ 0 →
      (calc_metrics rows).CPC =
        (rows.map (fun r => r.spend)).sum / (rows.map (fun r => r.clicks)).sum) ∧
    ((rows.map (fun r => r.impressions)).sum = 0 → (calc_metrics rows).CTR = 0) ∧
    ((rows.map (fun r => r.impressions)).sum ≠ 0 →
      (calc_metrics rows).CTR =
        (rows.map (fun r => r.clicks)).sum / (rows.map (fun r => r.impressions)).sum * 100) := by
  have key : ∀ (S e : ℚ), 0 ≤ S →
      ((S = 0 → (if 0 < S then e else 0) = 0) ∧ (S ≠ 0 → (if 0 < S then e else 0) = e)) := by
    intro S e hS
    constructor
    · intro h0
      rw [h0]
      simp
    · intro h0
      rw [if_pos (lt_of_le_of_ne hS (Ne.symm h0))]
  have mem_nonneg : ∀ (f : CRecord → ℚ), (∀ r ∈ rows, 0 ≤ f r) →
      0 ≤ (rows.map f).sum := by
    intro f hf
    refine List.sum_nonneg ?_
    intro x hx
    obtain ⟨r, hr, rfl⟩ := List.mem_map.mp hx
    exact hf r hr
  have hsp := mem_nonneg (fun r => r.spend) (fun r hr => (h r hr).1)
  have hsa := mem_nonneg (fun r => r.sales) (fun r hr => (h r hr).2.1)
  have hcl := mem_nonneg (fun r => r.clicks) (fun r hr => (h r hr).2.2.2.1)
  have him := mem_nonneg (fun r => r.impressions) (fun r hr => (h r hr).2.2.2.2)
  simp only [calc_metrics]
  exact ⟨(key _ _ hsp).1, (key _ _ hsp).2, (key _ _ hsa).1, (key _ _ hsa).2,
    (key _ _ hcl).1, (key _ _ hcl).2, (key _ _ hcl).1, (key _ _ hcl).2,
    (key _ _ him).1, (key _ _ him).2⟩

/-- The concrete row list the C1 witness instantiates the theorem at. -/
def c1rows : List CRecord :=
  [{ date := ⟨2024, 9, 1⟩, portfolioName := none, campaignName := none,
     spend := 2, sales := 6, orders := 1, clicks := 4, impressions := 8 }]

/-- Witness for C1: the hypotheses hold and the theorem applies at `c1rows`. -/
theorem C1_witness :
    (∀ r ∈ c1rows, 0 ≤ r.spend ∧ 0 ≤ r.sales ∧ 0 ≤ r.orders ∧
      0 ≤ r.clicks ∧ 0 ≤ r.impressions) ∧
    (((c1rows.map (fun r => r.spend)).sum = 0 → (calc_metrics c1rows).ROAS = 0) ∧
    ((c1rows.map (fun r => r.spend)).sum ≠ 0 →
      (calc_metrics c1rows).ROAS =
        (c1rows.map (fun r => r.sales)).sum / (c1rows.map (fun r => r.spend)).sum) ∧
    ((c1rows.map (fun r => r.sales)).sum = 0 → (calc_metrics c1rows).ACoS = 0) ∧
    ((c1rows.map (fun r => r.sales)).sum ≠ 0 →
      (calc_metrics c1rows).ACoS =
        (c1rows.map (fun r => r.spend)).sum / (c1rows.map (fun r => r.sales)).sum * 100) ∧
    ((c1rows.map (fun r => r.clicks)).sum = 0 → (calc_metrics c1rows).CVR = 0) ∧
    ((c1rows.map (fun r => r.clicks)).sum ≠ 0 →
      (calc_metrics c1rows).CVR =
        (c1rows.map (fun r => r.orders)).sum / (c1rows.map (fun r => r.clicks)).sum * 100) ∧
    ((c1rows.map (fun r => r.clicks)).sum = 0 → (calc_metrics c1rows).CPC = 0) ∧
    ((c1rows.map (fun r => r.clicks)).sum ≠ 0 →
      (calc_metrics c1rows).CPC =
        (c1rows.map (fun r => r.spend)).sum / (c1rows.map (fun r => r.clicks)).sum) ∧
    ((c1rows.map (fun r => r.impressions)).sum = 0 → (calc_metrics c1rows).CTR = 0) ∧
    ((c1rows.map (fun r => r.impressions)).sum ≠ 0 →
      (calc_metrics c1rows).CTR =
        (c1rows.map (fun r => r.clicks)).sum / (c1rows.map (fun r => r.impressions)).sum * 100)) :=
  ⟨by decide, C1_calc_metrics_div_by_zero_contract c1rows (by decide)⟩

/-! ## Claim C6: grouping conserves the raw-quantity totals -/

theorem sum_map_add_q {α : Type} (l : List α) (g h : α → ℚ) :
    (l.map (fun a => g a + h a)).sum = (l.map g).sum + (l.map h).sum := by
  induction l with
  | nil => simp
  | cons x xs ih =>
      simp only [List.map_cons, List.sum_cons, ih]
      ring

theorem sum_ite_notmem (keys : List String) (c : String) (q : ℚ) (hc : c ∉ keys) :
    (keys.map (fun k => if c = k then q else 0)).sum = 0 := by
  induction keys with
  | nil => simp
  | cons k ks ih =>
      have hck : ¬ c = k := fun h => hc (h ▸ List.mem_cons_self k ks)
      have hcs : c ∉ ks := fun h => hc (List.mem_cons_of_mem k h)
      simp [hck, ih hcs]

theorem sum_ite_single (keys : List String) (c : String) (q : ℚ)
    (hnd : keys.Nodup) (hc : c ∈ keys) :
    (keys.map (fun k => if c = k then q else 0)).sum = q := by
  induction keys with
  | nil => cases hc
  | cons k ks ih =>
      rcases List.pairwise_cons.mp hnd with ⟨hk, hnd'⟩
      rcases List.mem_cons.mp hc with hck | hck
      · subst hck
        have hnot : c ∉ ks := fun h => (hk c h) rfl
        simp [sum_ite_notmem ks c q hnot]
      · have hne : ¬ c = k := fun h => (h ▸ hk c hck) rfl
        simp [hne, ih hnd' hck]

/-- Summing any per-record quantity over the segment buckets of a
duplicate-free covering key list reproduces the total over all records. -/
theorem grouped_sum (f : CRecord → ℚ) (rows : List CRecord) (keys : List String)
    (hnd : keys.Nodup) (hcov : ∀ r ∈ rows, segOf r ∈ keys) :
    (keys.map (fun k => ((segBucket rows k).map f).sum)).sum = (rows.map f).sum := by
  induction rows with
  | nil =>
      simp [segBucket]
  | cons r rs ih =>
      have step : keys.map (fun k => ((segBucket (r :: rs) k).map f).sum)
          = keys.map (fun k => (if segOf r = k then f r else 0) + ((segBucket rs k).map f).sum) := by
        apply List.map_congr_left
        intro k _
        by_cases h : segOf r = k
        · simp [segBucket, List.filter_cons, h]
        · simp [segBucket, List.filter_cons, h]
      rw [step, sum_map_add_q,
        sum_ite_single keys (segOf r) (f r) hnd (hcov r (List.mem_cons_self r rs)),
        ih (fun x hx => hcov x (List.mem_cons_of_mem r hx))]
      simp

/-- **C6.** For every list of classified records, per-segment aggregation
conserves every raw-quantity total: the sum of `Spend` (resp. `Sales`,
`Orders`, `Clicks`, `Impressions`) over all groups of
`aggregate_by_segment` equals the sum of that quantity over all input
records — grouping never drops or duplicates a record. -/
theorem C6_segment_grouping_conserves_totals (camp : List CRecord) :
    ((aggregate_by_segment camp).map (fun p => p.2.Spend)).sum
        = (camp.map (fun r => r.spend)).sum ∧
    ((aggregate_by_segment camp).map (fun p => p.2.Sales)).sum
        = (camp.map (fun r => r.sales)).sum ∧
    ((aggregate_by_segment camp).map (fun p => p.2.Orders)).sum
        = (camp.map (fun r => r.orders)).sum ∧
    ((aggregate_by_segment camp).map (fun p => p.2.Clicks)).sum
        = (camp.map (fun r => r.clicks)).sum ∧
    ((aggregate_by_segment camp).map (fun p => p.2.Impressions)).sum
        = (camp.map (fun r => r.impressions)).sum := by
  have keyperm := sortBy_perm strLeB ((camp.map segOf).dedup)
  have hnd : (sortBy strLeB ((camp.map segOf).dedup)).Nodup :=
    keyperm.nodup_iff.mpr (List.nodup_dedup _)
  have hcov : ∀ r ∈ camp, segOf r ∈ sortBy strLeB ((camp.map segOf).dedup) := by
    intro r hr
    rw [keyperm.mem_iff]
    exact List.mem_dedup.mpr (List.mem_map_of_mem _ hr)
  refine ⟨?_, ?_, ?_, ?_, ?_⟩ <;>
    simpa [aggregate_by_segment, List.map_map, Function.comp, calc_metrics] using
      grouped_sum _ camp _ hnd hcov

/-! ## Claim C4: behaviour on records with unparseable dates -/

/-- A two-row input: a parseable date followed by a date that cannot be a
real calendar day (September 31st). -/
def c4rows : List RawCampaignRow :=
  [{ dateStr := "Sep 01, 2024", portfolioName := none, campaignName := none,
     spend := .num 1, sales := .num 2, orders := .num 0, impressions := .num 0,
     clicks := .num 0 },
   { dateStr := "9/31/24", portfolioName := none, campaignName := none,
     spend := .num 3, sales := .num 4, orders := .num 0, impressions := .num 0,
     clicks := .num 0 }]

/-- **C4 counterexample.** On an input where exactly one record's date is
unparseable, `load_campaign_data` does not exclude that record, count it
and keep aggregating the remaining valid record — it aborts the whole
load with an error (the claim asserts the opposite). -/
theorem C4_counterexample :
    (parseDate "Sep 01, 2024").isSome = true ∧
    parseDate "9/31/24" = none ∧
    (load_campaign_data c4rows).isOk = false := by
  refine ⟨by decide, by decide, ?_⟩
  have h1 : parseDate "Sep 01, 2024" = some ⟨2024, 9, 1⟩ := by decide
  have h2 : parseDate "9/31/24" = none := by decide
  simp [load_campaign_data, c4rows, h1, h2, Except.isOk, Except.toBool]

/-- **C4 (amended).** A record whose date cannot be parsed makes
`pd.to_datetime` (default `errors='raise'`) raise, aborting the whole
load: whenever some record's date fails to parse the load returns an
error (no bad-record count, no aggregation of the remaining records),
and only when every date parses does it return the full record list. -/
theorem C4_unparseable_date_aborts_load (rows : List RawCampaignRow) :
    ((∀ r ∈ rows, (parseDate r.dateStr).isSome) →
      ∃ recs, load_campaign_data rows = Except.ok recs ∧ recs.length = rows.length) ∧
    ((∃ r ∈ rows, parseDate r.dateStr = none) →
      ∃ msg, load_campaign_data rows = Except.error msg) := by
  induction rows with
  | nil =>
      constructor
      · intro _
        exact ⟨[], rfl, rfl⟩
      · rintro ⟨r, hr, _⟩
        cases hr
  | cons r rs ih =>
      constructor
      · intro hall
        obtain ⟨dt, hdt⟩ := Option.isSome_iff_exists.mp (hall r (List.mem_cons_self r rs))
        obtain ⟨recs, hrecs, hlen⟩ := ih.1 (fun x hx => hall x (List.mem_cons_of_mem r hx))
        refine ⟨⟨dt, r.portfolioName, r.campaignName, parse_currency r.spend,
            parse_currency r.sales, parse_currency r.orders, parse_currency r.clicks,
            parse_currency r.impressions⟩ :: recs, ?_, by simp [hlen]⟩
        simp only [load_campaign_data, hdt, hrecs]
      · rintro ⟨x, hx, hbad⟩
        rcases List.mem_cons.mp hx with hx | hx
        · subst hx
          exact ⟨"unconverted data remains: " ++ x.dateStr,
            by simp only [load_campaign_data, hbad]⟩
        · cases hdr : parseDate r.dateStr with
          | none =>
              exact ⟨"unconverted data remains: " ++ r.dateStr,
                by simp only [load_campaign_data, hdr]⟩
          | some dt =>
              obtain ⟨msg, hmsg⟩ := ih.2 ⟨x, hx, hbad⟩
              exact ⟨msg, by simp only [load_campaign_data, hdr, hmsg]⟩

/-- Witness for the amended C4 at the concrete input `c4rows`. -/
theorem C4_witness :
    (∃ r ∈ c4rows, parseDate r.dateStr = none) ∧
    (∃ msg, load_campaign_data c4rows = Except.error msg) :=
  ⟨by decide, (C4_unparseable_date_aborts_load c4rows).2 (by decide)⟩

/-! ## Claim C3: the business left join defaults unmatched buckets -/

/-- **C3.** For every campaign dataset and business dataset, the monthly
aggregation left-joins the business sums by month label; a campaign month
bucket with no matching business row gets the `NaN` (absent) business
figures a left join leaves — and a `TACOS` of exactly `0` via
`fillna(0)` — rather than causing an error: the aggregation is total and
every bucket still produces a row. -/
theorem C3_left_join_unmatched_defaults (camp : List CRecord) (bs : List BRecord) :
    ∀ row ∈ aggregate_by_month camp (some bs),
      (∀ b ∈ bs, monthLabel b.date ≠ row.label) →
      row.biz = some ⟨PFloat.nan, PFloat.nan, PFloat.nan, PFloat.val 0, PFloat.nan⟩ := by
  intro row hrow hmis
  obtain ⟨L, _, rfl⟩ := List.mem_map.mp hrow
  have hbucket : bizBucket bs L = [] := by
    refine List.filter_eq_nil_iff.mpr ?_
    intro b hb
    simpa using hmis b hb
  simp [month_row, bizCell, hbucket, pdiv, pmul100, fillna0, psub, clip0]

/-! ## Claim C8: organic sales are clamped at zero -/

/-- **C8.** For every monthly bucket whose label matches at least one
business row, the joined `Organic_Sales` cell is the finite value
`max 0 (total_sales − ad_sales)` — `(Total_Sales - Sales).clip(lower=0)`
— and is therefore never negative, even when ad sales exceed total
sales. -/
theorem C8_organic_sales_clamped (camp : List CRecord) (bs : List BRecord) :
    ∀ row ∈ aggregate_by_month camp (some bs),
      (∃ b ∈ bs, monthLabel b.date = row.label) →
      ∃ bc, row.biz = some bc ∧
        bc.organic = PFloat.val
          (max 0 (((bizBucket bs row.label).map (fun b => b.totalSales)).sum - row.core.Sales)) ∧
        (∀ q, bc.organic = PFloat.val q → 0 ≤ q) := by
  intro row hrow hmatch
  obtain ⟨L, _, rfl⟩ := List.mem_map.mp hrow
  obtain ⟨b, hb, hlab⟩ := hmatch
  have hmem : b ∈ bizBucket bs L := by
    simp only [bizBucket, List.mem_filter, decide_eq_true_eq]
    exact ⟨hb, hlab⟩
  have hne : bizBucket bs L ≠ [] := List.ne_nil_of_mem hmem
  have hcell : bizCell bs L (fun b => b.totalSales)
      = PFloat.val (((bizBucket bs L).map (fun b => b.totalSales)).sum) := by
    simp [bizCell, hne]
  refine ⟨_, rfl, ?_, ?_⟩
  · show clip0 (psub (bizCell bs L (fun b => b.totalSales))
        (PFloat.val (calc_metrics (monthBucket camp L)).Sales)) = _
    rw [hcell]
    simp [psub, clip0, max_comm, month_row]
  · intro q hq
    have hq2 : clip0 (psub (bizCell bs L (fun b => b.totalSales))
        (PFloat.val (calc_metrics (monthBucket camp L)).Sales)) = PFloat.val q := hq
    rw [hcell] at hq2
    simp only [psub, clip0, PFloat.val.injEq] at hq2
    rw [← hq2]
    exact le_max_right _ _

/-- Concrete campaign input for the C3 witness (one September record). -/
def campX : List CRecord :=
  [{ date := ⟨2024, 9, 1⟩, portfolioName := none, campaignName := none,
     spend := 0, sales := 0, orders := 0, clicks := 0, impressions := 0 }]

/-- Concrete business input for the C3 witness: only an October row, so
the September bucket has no match. -/
def bizX : List BRecord := [⟨⟨2024, 10, 1⟩, 50, 1, 2⟩]

/-- The monthly row produced for `campX` joined with `bizX`. -/
def c3row : MonthlyRow :=
  ⟨"Sep 2024", ⟨0, 0, 0, 0, 0, 0, 0, 0, 0, 0⟩,
    some ⟨PFloat.nan, PFloat.nan, PFloat.nan, PFloat.val 0, PFloat.nan⟩⟩

/-- Witness for C3: at the concrete unmatched input, the bucket's row
exists and carries the `NaN`/0 business defaults. -/
theorem C3_witness :
    c3row ∈ aggregate_by_month campX (some bizX) ∧
    (∀ b ∈ bizX, monthLabel b.date ≠ c3row.label) ∧
    c3row.biz = some ⟨PFloat.nan, PFloat.nan, PFloat.nan, PFloat.val 0, PFloat.nan⟩ := by
  have hk : month_keys campX = ["Sep 2024"] := by decide
  have hmb : monthBucket campX "Sep 2024" = campX := by decide
  have hbb : bizBucket bizX "Sep 2024" = [] := by decide
  have hrow : month_row campX (some bizX) "Sep 2024" = c3row := by
    simp only [month_row, bizCell, hmb, hbb]
    norm_num [hbb, calc_metrics, campX, c3row, pdiv, pmul100, fillna0, psub, clip0]
  have hout : aggregate_by_month campX (some bizX) = [c3row] := by
    rw [aggregate_by_month, hk]
    simp [hrow]
  have hmem : c3row ∈ aggregate_by_month campX (some bizX) := by
    rw [hout]
    exact List.mem_singleton.mpr rfl
  have hmis : ∀ b ∈ bizX, monthLabel b.date ≠ c3row.label := by decide
  exact ⟨hmem, hmis, C3_left_join_unmatched_defaults campX bizX c3row hmem hmis⟩

/-- Concrete campaign input for the C8 witness: September ad sales 150. -/
def campY : List CRecord :=
  [{ date := ⟨2024, 9, 1⟩, portfolioName := none, campaignName := none,
     spend := 0, sales := 150, orders := 0, clicks := 0, impressions := 0 }]

/-- Concrete business input for the C8 witness: September total sales 100
(less than the ad sales). -/
def bizY : List BRecord := [⟨⟨2024, 9, 5⟩, 100, 0, 0⟩]

/-- Witness for C8 at the spec's own example `total_sales = 100,
ad_sales = 150`: the theorem applies, and the clamped value is `0`, not
`-50`. -/
theorem C8_witness :
    month_row campY (some bizY) "Sep 2024" ∈ aggregate_by_month campY (some bizY) ∧
    (∃ b ∈ bizY, monthLabel b.date = (month_row campY (some bizY) "Sep 2024").label) ∧
    (∃ bc, (month_row campY (some bizY) "Sep 2024").biz = some bc ∧
      bc.organic = PFloat.val
        (max 0 (((bizBucket bizY (month_row campY (some bizY) "Sep 2024").label).map
          (fun b => b.totalSales)).sum - (month_row campY (some bizY) "Sep 2024").core.Sales)) ∧
      (∀ q, bc.organic = PFloat.val q → 0 ≤ q)) ∧
    ((bizBucket bizY "Sep 2024").map (fun b => b.totalSales)).sum = 100 ∧
    (month_row campY (some bizY) "Sep 2024").core.Sales = 150 ∧
    max 0 ((100 : ℚ) - 150) = 0 := by
  have hk : month_keys campY = ["Sep 2024"] := by decide
  have hmem : month_row campY (some bizY) "Sep 2024" ∈ aggregate_by_month campY (some bizY) := by
    rw [aggregate_by_month, hk]
    simp
  have hmatch : ∃ b ∈ bizY, monthLabel b.date = (month_row campY (some bizY) "Sep 2024").label :=
    ⟨⟨⟨2024, 9, 5⟩, 100, 0, 0⟩, by decide, by decide⟩
  refine ⟨hmem, hmatch, C8_organic_sales_clamped campY bizY _ hmem hmatch, ?_, ?_, by norm_num⟩
  · have hbb : bizBucket bizY "Sep 2024" = bizY := by decide
    rw [hbb]
    norm_num [bizY]
  · have hmb : monthBucket campY "Sep 2024" = campY := by decide
    show (calc_metrics (monthBucket campY "Sep 2024")).Sales = 150
    rw [hmb]
    norm_num [calc_metrics, campY]

/-! ## Claim C2: TACOS on a bucket whose business total is zero

`aggregate_by_month` computes
`monthly['TACOS'] = (monthly['Spend'] / monthly['Total_Sales'] * 100).fillna(0)`.
NumPy float division gives `+inf` (not `NaN`) for `spend > 0` divided by
`0.0`, and `fillna(0)` replaces only `NaN` — so a month whose matched
business rows sum to `0` total sales, with positive spend, yields a TACOS
of `+inf`, violating the spec's "`0` if `total_sales = 0`" /
"never infinity" contract (which the scalar TACOS in
`create_summary_sheet`, guarded by `if total_sales > 0`, does satisfy). -/

/-- Campaign input for the C2 failing case: September spend 5. -/
def camp2 : List CRecord :=
  [{ date := ⟨2024, 9, 1⟩, portfolioName := none, campaignName := none,
     spend := 5, sales := 0, orders := 0, clicks := 0, impressions := 0 }]

/-- Business input for the C2 failing case: a September row with
`total_sales = 0`, so the join matches and the bucket's total is `0`. -/
def biz2 : List BRecord := [⟨⟨2024, 9, 15⟩, 0, 0, 0⟩]

/-- **C2 (code bug).** At the failing input — a monthly bucket with
`spend = 5` whose matched business total sales are `0` — the joined
monthly aggregate's TACOS cell is `+inf`, not the `0` the claim (and the
script's own division-by-zero contract) requires: `fillna(0)` does not
replace the `+inf` NumPy produces for `5 / 0`. -/
theorem C2_tacos_pinf_on_zero_total_sales :
    ∃ row ∈ aggregate_by_month camp2 (some biz2),
      ((bizBucket biz2 row.label).map (fun b => b.totalSales)).sum = 0 ∧
      row.core.Spend = 5 ∧
      row.biz.map (fun bc => bc.tacos) = some PFloat.pinf ∧
      row.biz.map (fun bc => bc.tacos) ≠ some (PFloat.val 0) := by
  have hk : month_keys camp2 = ["Sep 2024"] := by decide
  have hmb : monthBucket camp2 "Sep 2024" = camp2 := by decide
  have hbb : bizBucket biz2 "Sep 2024" = biz2 := by decide
  have hsp : (calc_metrics (monthBucket camp2 "Sep 2024")).Spend = 5 := by
    rw [hmb]
    norm_num [calc_metrics, camp2]
  have ht : bizCell biz2 "Sep 2024" (fun b => b.totalSales) = PFloat.val 0 := by
    rw [bizCell, if_neg (by rw [hbb]; simp [biz2])]
    rw [hbb]
    norm_num [biz2]
  refine ⟨month_row camp2 (some biz2) "Sep 2024", ?_, ?_, hsp, ?_, ?_⟩
  · rw [aggregate_by_month, hk]
    simp
  · show ((bizBucket biz2 "Sep 2024").map (fun b => b.totalSales)).sum = 0
    rw [hbb]
    norm_num [biz2]
  · show some (fillna0 (pmul100 (pdiv
        (PFloat.val (calc_metrics (monthBucket camp2 "Sep 2024")).Spend)
        (bizCell biz2 "Sep 2024" (fun b => b.totalSales))))) = some PFloat.pinf
    rw [hsp, ht]
    norm_num [pdiv, pmul100, fillna0]
  · show some (fillna0 (pmul100 (pdiv
        (PFloat.val (calc_metrics (monthBucket camp2 "Sep 2024")).Spend)
        (bizCell biz2 "Sep 2024" (fun b => b.totalSales))))) ≠ some (PFloat.val 0)
    rw [hsp, ht]
    norm_num [pdiv, pmul100, fillna0]
    decide

/-! ## Claim C7: chronological ordering of the time buckets -/

section CalendarLemmas

theorem daysInMonth_le (y m : Nat) : daysInMonth y m ≤ 31 := by
  unfold daysInMonth
  split
  · split <;> omega
  all_goals omega

theorem serial_inj (a b : Date) (ha : ValidDate a) (hb : ValidDate b)
    (h : serial a = serial b) : a = b := by
  obtain ⟨ha1, ha2, ha3, ha4⟩ := ha
  obtain ⟨hb1, hb2, hb3, hb4⟩ := hb
  have ha5 := daysInMonth_le a.y a.m
  have hb5 := daysInMonth_le b.y b.m
  unfold serial at h
  cases a with
  | mk ay am ad =>
      cases b with
      | mk by' bm bd =>
          simp only at h ha1 ha2 ha3 ha4 hb1 hb2 hb3 hb4 ha5 hb5 ⊢
          have : ay = by' ∧ am = bm ∧ ad = bd := by omega
          simp [this.1, this.2.1, this.2.2]

theorem cumDays_step (y m m' : Nat) (h1 : 1 ≤ m) (h2 : m < m') (h3 : m' ≤ 12) :
    cumDays y m + daysInMonth y m ≤ cumDays y m' := by
  have hm : m ≤ 11 := by omega
  interval_cases m <;> interval_cases m' <;>
    cases hl : isLeap y <;> simp [cumDays, daysInMonth, hl] <;> try omega

theorem cumDays_le_335 (y m : Nat) (hm1 : 1 ≤ m) (hm : m ≤ 12) : cumDays y m ≤ 335 := by
  interval_cases m <;> cases hl : isLeap y <;> simp [cumDays, hl]

theorem doy0_le_365 (dt : Date) (h : ValidDate dt) : doy0 dt ≤ 365 := by
  obtain ⟨h1, h2, h3, h4⟩ := h
  have h5 := daysInMonth_le dt.y dt.m
  have h6 := cumDays_le_335 dt.y dt.m h1 h2
  unfold doy0
  omega

theorem weekNum_lt_100 (dt : Date) (h : ValidDate dt) : weekNum dt < 100 := by
  have h1 := doy0_le_365 dt h
  unfold weekNum dow
  omega

theorem weekNum_mono (a b : Date) (hy : a.y = b.y) (h : doy0 a ≤ doy0 b) :
    weekNum a ≤ weekNum b := by
  unfold weekNum dow
  rw [hy]
  omega

theorem doy0_mono_of_serial (a b : Date) (hva : ValidDate a) (hvb : ValidDate b)
    (hy : a.y = b.y) (h : serial a ≤ serial b) : doy0 a ≤ doy0 b := by
  obtain ⟨ha1, ha2, ha3, ha4⟩ := hva
  obtain ⟨hb1, hb2, hb3, hb4⟩ := hvb
  have ha5 := daysInMonth_le a.y a.m
  have hb5 := daysInMonth_le b.y b.m
  unfold serial at h
  rw [hy] at h
  have hcases : a.m < b.m ∨ (a.m = b.m ∧ a.d ≤ b.d) := by omega
  unfold doy0
  rcases hcases with hm | ⟨hm, hd⟩
  · have hstep := cumDays_step b.y a.m b.m ha1 hm hb2
    rw [hy] at ha4 ⊢
    omega
  · rw [hy, hm]
    omega

theorem serial_lt_of_weekKey (a b : Date) (hva : ValidDate a) (hvb : ValidDate b)
    (hk : a.y < b.y ∨ (a.y = b.y ∧ weekNum a < weekNum b)) : serial a < serial b := by
  obtain ⟨ha1, ha2, ha3, ha4⟩ := hva
  obtain ⟨hb1, hb2, hb3, hb4⟩ := hvb
  have ha5 := daysInMonth_le a.y a.m
  have hb5 := daysInMonth_le b.y b.m
  rcases hk with hy | ⟨hy, hw⟩
  · unfold serial
    omega
  · by_contra hc
    push_neg at hc
    have hd : doy0 b ≤ doy0 a :=
      doy0_mono_of_serial b a ⟨hb1, hb2, hb3, hb4⟩ ⟨ha1, ha2, ha3, ha4⟩ hy.symm hc
    have := weekNum_mono b a hy.symm hd
    omega

end CalendarLemmas

section DigitLemmas

theorem digitChar_lt_iff (a b : Nat) : digitChar a < digitChar b ↔ a % 10 < b % 10 := by
  unfold digitChar
  have ha : a % 10 < 10 := Nat.mod_lt _ (by norm_num)
  have hb : b % 10 < 10 := Nat.mod_lt _ (by norm_num)
  generalize a % 10 = a' at *
  generalize b % 10 = b' at *
  interval_cases a' <;> interval_cases b' <;> decide

theorem digitChar_eq_of_mod (a b : Nat) (h : a % 10 = b % 10) : digitChar a = digitChar b := by
  unfold digitChar
  rw [h]

theorem charListLt_digit_cons (a b : Nat) (r1 r2 : List Char) :
    charListLt (digitChar a :: r1) (digitChar b :: r2)
      = if a % 10 < b % 10 then true
        else if b % 10 < a % 10 then false
        else charListLt r1 r2 := by
  simp only [charListLt]
  rcases Nat.lt_trichotomy (a % 10) (b % 10) with h | h | h
  · rw [if_pos ((digitChar_lt_iff a b).mpr h), if_pos h]
  · rw [digitChar_eq_of_mod a b h, h]
    simp [lt_irrefl]
  · rw [if_neg (fun hc => absurd ((digitChar_lt_iff a b).mp hc) (by omega)),
      if_pos ((digitChar_lt_iff b a).mpr h),
      if_neg (show ¬ a % 10 < b % 10 by omega), if_pos h]

theorem charListLt_same_cons (c : Char) (r1 r2 : List Char) :
    charListLt (c :: r1) (c :: r2) = charListLt r1 r2 := by
  simp [charListLt, lt_irrefl]

theorem charListLt_pad2 (w1 w2 : Nat) (h1 : w1 < 100) (h2 : w2 < 100) (r1 r2 : List Char) :
    charListLt (pad2 w1 ++ r1) (pad2 w2 ++ r2)
      = if w1 < w2 then true else if w2 < w1 then false else charListLt r1 r2 := by
  simp only [pad2, List.cons_append, List.nil_append]
  rw [charListLt_digit_cons, charListLt_digit_cons]
  split_ifs <;> first | rfl | (exfalso; omega)

theorem weekLabelChars_lt_iff (y1 w1 y2 w2 : Nat)
    (hy1 : 1000 ≤ y1 ∧ y1 ≤ 9999) (hy2 : 1000 ≤ y2 ∧ y2 ≤ 9999)
    (hw1 : w1 < 100) (hw2 : w2 < 100) :
    charListLt (pad4 y1 ++ '-' :: 'W' :: pad2 w1) (pad4 y2 ++ '-' :: 'W' :: pad2 w2) = true
      ↔ (y1 < y2 ∨ (y1 = y2 ∧ w1 < w2)) := by
  have e1 : pad4 y1 ++ '-' :: 'W' :: pad2 w1
      = pad2 (y1 / 100) ++ (pad2 (y1 % 100) ++ '-' :: 'W' :: pad2 w1) := by
    simp [pad4, List.append_assoc]
  have e2 : pad4 y2 ++ '-' :: 'W' :: pad2 w2
      = pad2 (y2 / 100) ++ (pad2 (y2 % 100) ++ '-' :: 'W' :: pad2 w2) := by
    simp [pad4, List.append_assoc]
  rw [e1, e2, charListLt_pad2 _ _ (by omega) (by omega),
    charListLt_pad2 _ _ (by omega) (by omega),
    charListLt_same_cons, charListLt_same_cons,
    show pad2 w1 = pad2 w1 ++ [] from (List.append_nil _).symm,
    show pad2 w2 = pad2 w2 ++ [] from (List.append_nil _).symm,
    charListLt_pad2 _ _ hw1 hw2]
  have hcl : charListLt [] [] = false := rfl
  rw [hcl]
  split_ifs <;> simp <;> omega

end DigitLemmas

section BucketMinima

theorem weekLabel_lt_serial (a b : Date) (hva : ValidDate a) (hvb : ValidDate b)
    (hya : 1000 ≤ a.y) (hya2 : a.y ≤ 9999) (hyb : 1000 ≤ b.y) (hyb2 : b.y ≤ 9999)
    (h : charListLt (weekLabelChars a) (weekLabelChars b) = true) : serial a < serial b := by
  have hk := (weekLabelChars_lt_iff a.y (weekNum a) b.y (weekNum b) ⟨hya, hya2⟩ ⟨hyb, hyb2⟩
    (weekNum_lt_100 a hva) (weekNum_lt_100 b hvb)).mp h
  exact serial_lt_of_weekKey a b hva hvb hk

theorem foldl_min_mem (xs : List Nat) (x : Nat) : xs.foldl Nat.min x ∈ x :: xs := by
  induction xs generalizing x with
  | nil => simp [List.foldl]
  | cons y ys ih =>
      simp only [List.foldl]
      rcases List.mem_cons.mp (ih (Nat.min x y)) with h | h
      · rw [h]
        rcases Nat.le_total x y with hxy | hxy
        · simp [Nat.min_eq_left hxy]
        · simp [Nat.min_eq_right hxy]
      · exact List.mem_cons_of_mem _ (List.mem_cons_of_mem _ h)

theorem listMin_mem (l : List Nat) (h : l ≠ []) : listMin l ∈ l := by
  cases l with
  | nil => exact absurd rfl h
  | cons x xs => exact foldl_min_mem xs x

theorem minMonthS_attained (camp : List CRecord) (L : String)
    (h : ∃ r ∈ camp, monthLabel r.date = L) :
    ∃ r ∈ camp, monthLabel r.date = L ∧ serial r.date = minMonthS camp L := by
  obtain ⟨r0, hr0, hl0⟩ := h
  have hb0 : r0 ∈ monthBucket camp L := by
    simp [monthBucket, List.mem_filter, hr0, hl0]
  have hbne : (monthBucket camp L).map (fun r => serial r.date) ≠ [] := by
    intro hc
    rw [List.map_eq_nil_iff] at hc
    rw [hc] at hb0
    cases hb0
  have hmem := listMin_mem _ hbne
  obtain ⟨r, hr, hser⟩ := List.mem_map.mp hmem
  have hrb := List.mem_filter.mp hr
  refine ⟨r, hrb.1, ?_, hser⟩
  simpa using hrb.2

theorem minWeekS_attained (camp : List CRecord) (L : String)
    (h : ∃ r ∈ camp, weekLabel r.date = L) :
    ∃ r ∈ camp, weekLabel r.date = L ∧ serial r.date = minWeekS camp L := by
  obtain ⟨r0, hr0, hl0⟩ := h
  have hb0 : r0 ∈ weekBucket camp L := by
    simp [weekBucket, List.mem_filter, hr0, hl0]
  have hbne : (weekBucket camp L).map (fun r => serial r.date) ≠ [] := by
    intro hc
    rw [List.map_eq_nil_iff] at hc
    rw [hc] at hb0
    cases hb0
  have hmem := listMin_mem _ hbne
  obtain ⟨r, hr, hser⟩ := List.mem_map.mp hmem
  have hrb := List.mem_filter.mp hr
  refine ⟨r, hrb.1, ?_, hser⟩
  simpa using hrb.2

end BucketMinima

section KeyOrdering

theorem month_keys_nodup (camp : List CRecord) : (month_keys camp).Nodup := by
  unfold month_keys
  exact ((sortBy_perm _ _).nodup_iff).mpr
    (((sortBy_perm _ _).nodup_iff).mpr (List.nodup_dedup _))

theorem month_keys_mem (camp : List CRecord) (L : String) (h : L ∈ month_keys camp) :
    ∃ r ∈ camp, monthLabel r.date = L := by
  unfold month_keys at h
  rw [(sortBy_perm _ _).mem_iff, (sortBy_perm _ _).mem_iff, List.mem_dedup] at h
  obtain ⟨r, hr, he⟩ := List.mem_map.mp h
  exact ⟨r, hr, he⟩

theorem week_keys_nodup (camp : List CRecord) : (week_keys camp).Nodup := by
  unfold week_keys
  exact ((sortBy_perm _ _).nodup_iff).mpr (List.nodup_dedup _)

theorem week_keys_mem (camp : List CRecord) (L : String) (h : L ∈ week_keys camp) :
    ∃ r ∈ camp, weekLabel r.date = L := by
  unfold week_keys at h
  rw [(sortBy_perm _ _).mem_iff, List.mem_dedup] at h
  obtain ⟨r, hr, he⟩ := List.mem_map.mp h
  exact ⟨r, hr, he⟩

theorem month_keys_pairwise_le (camp : List CRecord) :
    (month_keys camp).Pairwise (fun L M => minMonthS camp L ≤ minMonthS camp M) := by
  have htot : ∀ a b : String,
      (decide (minMonthS camp a ≤ minMonthS camp b)
        || decide (minMonthS camp b ≤ minMonthS camp a)) = true := by
    intro a b
    rcases Nat.le_total (minMonthS camp a) (minMonthS camp b) with h | h <;> simp [h]
  have htrans : ∀ a b c : String,
      decide (minMonthS camp a ≤ minMonthS camp b) = true →
      decide (minMonthS camp b ≤ minMonthS camp c) = true →
      decide (minMonthS camp a ≤ minMonthS camp c) = true := by
    intro a b c h1 h2
    simp only [decide_eq_true_eq] at h1 h2 ⊢
    omega
  have := sortBy_pairwise (fun L M => decide (minMonthS camp L ≤ minMonthS camp M))
    htot htrans (sortBy strLeB ((camp.map (fun r => monthLabel r.date)).dedup))
  exact this.imp (fun h => of_decide_eq_true h)

theorem month_minima_strict (camp : List CRecord) (hv : ∀ r ∈ camp, ValidDate r.date) :
    (month_keys camp).Pairwise (fun L M => minMonthS camp L < minMonthS camp M) := by
  have hpw := month_keys_pairwise_le camp
  have hnd : (month_keys camp).Pairwise (fun L M => L ≠ M) := month_keys_nodup camp
  refine List.Pairwise.imp_of_mem ?_ (hpw.and hnd)
  intro L M hL hM hLM
  obtain ⟨hle, hne⟩ := hLM
  rcases lt_or_eq_of_le hle with h | h
  · exact h
  · exfalso
    obtain ⟨rL, hrL, hlL, hsL⟩ := minMonthS_attained camp L (month_keys_mem camp L hL)
    obtain ⟨rM, hrM, hlM, hsM⟩ := minMonthS_attained camp M (month_keys_mem camp M hM)
    have hdates : rL.date = rM.date :=
      serial_inj _ _ (hv rL hrL) (hv rM hrM) (by rw [hsL, hsM, h])
    exact hne (by rw [← hlL, ← hlM, hdates])

theorem strLt_of_le_ne (L M : String) (h1 : strLeB L M = true) (h2 : L ≠ M) :
    charListLt L.data M.data = true := by
  unfold strLeB at h1
  simp only [Bool.not_eq_true'] at h1
  cases hc : charListLt L.data M.data
  · exfalso
    apply h2
    have hd := charListLt_connex _ _ hc h1
    cases L
    cases M
    simp only at hd
    rw [hd]
  · rfl

theorem week_minima_strict (camp : List CRecord)
    (hv : ∀ r ∈ camp, ValidDate r.date ∧ 1000 ≤ r.date.y ∧ r.date.y ≤ 9999) :
    (week_keys camp).Pairwise (fun L M => minWeekS camp L < minWeekS camp M) := by
  have hpw : (week_keys camp).Pairwise (fun L M => strLeB L M = true) :=
    sortBy_pairwise strLeB strLeB_total strLeB_trans _
  have hnd : (week_keys camp).Pairwise (fun L M => L ≠ M) := week_keys_nodup camp
  refine List.Pairwise.imp_of_mem ?_ (hpw.and hnd)
  intro L M hL hM hLM
  obtain ⟨hle, hne⟩ := hLM
  have hlt := strLt_of_le_ne L M hle hne
  obtain ⟨rL, hrL, hlL, hsL⟩ := minWeekS_attained camp L (week_keys_mem camp L hL)
  obtain ⟨rM, hrM, hlM, hsM⟩ := minWeekS_attained camp M (week_keys_mem camp M hM)
  have hdL : L.data = weekLabelChars rL.date := by rw [← hlL]; rfl
  have hdM : M.data = weekLabelChars rM.date := by rw [← hlM]; rfl
  rw [← hsL, ← hsM]
  refine weekLabel_lt_serial _ _ (hv rL hrL).1 (hv rM hrM).1
    (hv rL hrL).2.1 (hv rL hrL).2.2 (hv rM hrM).2.1 (hv rM hrM).2.2 ?_
  rw [← hdL, ← hdM]
  exact hlt

end KeyOrdering

/-- **C7.** For every list of valid records (real calendar dates; years in
the four-digit range that contains all pandas timestamps), the buckets of
the monthly aggregation and of the weekly aggregation are both emitted in
strictly increasing order of each bucket's minimum underlying record date
(on the `serial` linearisation of the chronological order) — for months
because the frame is explicitly re-sorted by `groupby('Month_Label')
['Date'].min()`, for weeks because the lexicographic order of the
`'%Y-W%U'` labels coincides with the chronological order of the buckets. -/
theorem C7_time_buckets_chronological (camp : List CRecord)
    (hv : ∀ r ∈ camp, ValidDate r.date ∧ 1000 ≤ r.date.y ∧ r.date.y ≤ 9999) :
    (aggregate_by_month camp none).Pairwise
      (fun a b => minMonthS camp a.label < minMonthS camp b.label) ∧
    (aggregate_by_week camp).Pairwise
      (fun a b => minWeekS camp a.1 < minWeekS camp b.1) := by
  constructor
  · have hs := month_minima_strict camp (fun r hr => (hv r hr).1)
    unfold aggregate_by_month
    rw [List.pairwise_map]
    exact hs
  · have hs := week_minima_strict camp hv
    unfold aggregate_by_week
    rw [List.pairwise_map]
    exact hs

/-- The spec's own ordering example: records dated Dec 2024, Jan 2025 and
Nov 2024, in that input order. -/
def c7camp : List CRecord :=
  [{ date := ⟨2024, 12, 5⟩, portfolioName := none, campaignName := none,
     spend := 0, sales := 0, orders := 0, clicks := 0, impressions := 0 },
   { date := ⟨2025, 1, 3⟩, portfolioName := none, campaignName := none,
     spend := 0, sales := 0, orders := 0, clicks := 0, impressions := 0 },
   { date := ⟨2024, 11, 20⟩, portfolioName := none, campaignName := none,
     spend := 0, sales := 0, orders := 0, clicks := 0, impressions := 0 }]

/-- Witness for C7 at the spec's Dec/Jan/Nov example; the month buckets
come out `Nov 2024, Dec 2024, Jan 2025` — chronological, not the lexical
string order `Dec, Jan, Nov`. -/
theorem C7_witness :
    (∀ r ∈ c7camp, ValidDate r.date ∧ 1000 ≤ r.date.y ∧ r.date.y ≤ 9999) ∧
    month_keys c7camp = ["Nov 2024", "Dec 2024", "Jan 2025"] ∧
    ((aggregate_by_month c7camp none).Pairwise
      (fun a b => minMonthS c7camp a.label < minMonthS c7camp b.label) ∧
    (aggregate_by_week c7camp).Pairwise
      (fun a b => minWeekS c7camp a.1 < minWeekS c7camp b.1)) :=
  ⟨by decide, by decide, C7_time_buckets_chronological c7camp (by decide)⟩
